import Mathlib

/-!
Verification of the magicServer upload client (src/training-area/test-a.go).

Shallow embedding of the pure formatting functions (Comma, FileSizeFormat,
MeasureTransferRate) and of the control flow of the effectful functions
(tokenCacheFile, getClient, getOrCreateFolder, uploadFile, main), with the
external world (file system, OAuth endpoints, Drive service) supplied as an
explicit environment of oracle results and the observable effects recorded
as an explicit event list.

Machine integers are modelled as ℤ with explicit wrap-around where the Go
code can overflow (the int64 negation 0 - v in Comma); the float64 value in
FileSizeFormat is modelled with exact rational arithmetic.
-/

namespace MagicServer

/-! ### Decimal digit strings (model of strconv.FormatInt / strconv.Itoa, base 10) -/

/-- Little-endian base-10 digits of a natural number, with explicit fuel so
that the definition is structurally recursive and kernel-evaluable.
Fuel of at least n always suffices. -/
def decDigitsCore : ℕ → ℕ → List ℕ
  | 0, _ => []
  | fuel + 1, n => if n = 0 then [] else n % 10 :: decDigitsCore fuel (n / 10)

/-- Little-endian base-10 digits of n (empty for 0). -/
def decDigitsLE (n : ℕ) : List ℕ := decDigitsCore n n

/-- The decimal representation of a natural number as a list of characters,
most significant digit first; model of strconv.FormatInt(n, 10) for n ≥ 0. -/
def decDigits (n : ℕ) : List Char :=
  if n = 0 then ['0'] else ((decDigitsLE n).map Nat.digitChar).reverse

/-! ### Comma (thousands grouping), from the source:

    func Comma(v int64) string {
        sign := ""
        if v < 0 { sign = "-"; v = 0 - v }
        parts := []string{"", "", "", "", "", "", ""}
        j := len(parts) - 1
        for v > 999 {
            parts[j] = strconv.FormatInt(v%1000, 10)
            switch len(parts[j]) { case 2: parts[j] = "0"+parts[j]; case 1: parts[j] = "00"+parts[j] }
            v = v / 1000
            j--
        }
        parts[j] = strconv.Itoa(int(v))
        return sign + strings.Join(parts[j:], ",")
    }
-/

/-- Model of the Go switch that left-pads a 1- or 2-character group to
three characters with zeros. -/
def pad3 (s : List Char) : List Char :=
  if s.length = 2 then '0' :: s
  else if s.length = 1 then '0' :: '0' :: s
  else s

/-- The groups written into parts[j:], most significant first: the loop
body for v > 999, the final strconv.Itoa(int(v)) otherwise.  Fuel-based so
the kernel can evaluate it; fuel of at least v always suffices (the loop
runs at most log₁₀₀₀ v times). -/
def commaGroupsCore : ℕ → ℕ → List (List Char)
  | 0, v => [decDigits v]
  | fuel + 1, v =>
    if 999 < v then commaGroupsCore fuel (v / 1000) ++ [pad3 (decDigits (v % 1000))]
    else [decDigits v]

/-- The list of three-digit groups of v, most significant first. -/
def commaGroups (v : ℕ) : List (List Char) := commaGroupsCore v v

/-- strings.Join(gs, ",") on the group lists. -/
def joinComma (gs : List (List Char)) : List Char := (gs.intersperse [',']).flatten

/-- Go int64 wrap-around: reduce an integer into [-2^63, 2^63).  The %
here is the Euclidean Int.emod, whose result is nonnegative. -/
def int64wrap (x : ℤ) : ℤ := (x + 2 ^ 63) % 2 ^ 64 - 2 ^ 63

/-- The loop and final strconv.Itoa of Comma on the (possibly negated)
value.  When the value is still negative after negation (only possible
for v = -2^63, where the int64 negation wraps) the loop  for v > 999  is
skipped and the single part is strconv.Itoa of the negative value, i.e. a
minus sign followed by the digits of its absolute value. -/
def commaBody (v1 : ℤ) : List Char :=
  if v1 < 0 then '-' :: decDigits v1.natAbs
  else joinComma (commaGroups v1.toNat)

/-- Comma as a character list: the sign recorded for v < 0, and the body
computed on the Go int64 negation int64wrap (0 - v) for negative input. -/
def CommaChars (v : ℤ) : List Char :=
  (if v < 0 then ['-'] else []) ++ commaBody (if v < 0 then int64wrap (0 - v) else v)

/-- Comma, the thousands-grouping function of the source. -/
def Comma (v : ℤ) : String := String.mk (CommaChars v)

/-! ### Spec-side definitions for C4/C5 (from the spec's words, to be
compared with the source embedding): "insert a separator every three
digits from the right, preserving sign", and the round-trip
"strip separators, parse". -/

/-- Modelled from the spec: insert a comma after every three characters,
working along the list, but only when more characters remain.  Applied to
the reversed digit string this is "every three digits from the right". -/
def sepEvery3 : List Char → List Char
  | c1 :: c2 :: c3 :: c4 :: rest => c1 :: c2 :: c3 :: ',' :: sepEvery3 (c4 :: rest)
  | l => l

/-- Modelled from the spec: the grouping of a digit string with a
separator inserted every three digits from the right. -/
def specGrouped (s : List Char) : List Char := (sepEvery3 s.reverse).reverse

/-- Strip the separators: remove every ',' character. -/
def stripSep (s : List Char) : List Char := s.filter (fun c => c ≠ ',')

/-- Numeric value of a digit character. -/
def charVal (c : Char) : ℕ := c.toNat - '0'.toNat

/-- Parse a digit string (most significant first) as a decimal natural. -/
def parseDec (s : List Char) : ℕ := s.foldl (fun acc c => acc * 10 + charVal c) 0

/-! ### FileSizeFormat, from the source:

    func FileSizeFormat(bytes int64, forceBytes bool) string {
        if forceBytes { return fmt.Sprintf("%v B", bytes) }
        units := []string{"B", "KB", "MB", "GB", "TB", "PB"}
        var i int
        value := float64(bytes)
        for value > 1000 { value /= 1000; i++ }
        return fmt.Sprintf("%.1f %s", value, units[i])
    }

The float64 value after i divisions is bytes / 1000^i; over exact
arithmetic the loop guard value > 1000 is 1000^(i+1) < bytes, so the loop
counter is the least i with bytes ≤ 1000^(i+1).  All quantities in the
boundary cases used below (1000, 1500) are exactly representable in
float64, so the exact-rational model agrees with the float code there.
The returned string shows value rounded to one decimal place; rounding to
the 0.1 grid maps [0, 1000] into [0, 1000] since 1000.0 is on the grid. -/

/-- The division count of the FileSizeFormat loop, fuel-based (fuel of at
least b always suffices): keeps dividing while 1000^(i+1) < b, i.e. while
the running value b / 1000^i exceeds 1000. -/
def fsLoopCore : ℕ → ℕ → ℕ → ℕ
  | 0, _, i => i
  | fuel + 1, b, i => if 1000 ^ (i + 1) < b then fsLoopCore fuel b (i + 1) else i

/-- The unit index i selected by the FileSizeFormat loop for byte count b. -/
def fsTier (b : ℕ) : ℕ := fsLoopCore b b 0

/-- The units slice of FileSizeFormat. -/
def sizeUnits : List String := ["B", "KB", "MB", "GB", "TB", "PB"]

/-- The numeric part of the FileSizeFormat result (the float64 value at
loop exit, exactly): bytes / 1000 ^ i.  Negative byte counts skip the loop
(tier 0) since float64(bytes) ≤ 0 < 1000. -/
def fsValue (bytes : ℤ) : ℚ := (bytes : ℚ) / 1000 ^ fsTier bytes.toNat

/-- Abstract form of the string returned by FileSizeFormat: either the raw
byte count with unit "B" (forceBytes), or a scaled value with the unit
selected from the units slice (none when the index runs past the slice,
which in the Go code is an index-out-of-range panic). -/
inductive SizeStr where
  | raw (bytes : ℤ)
  | scaled (value : ℚ) (unit : Option String)
deriving DecidableEq

/-- FileSizeFormat of the source. -/
def FileSizeFormat (bytes : ℤ) (forceBytes : Bool) : SizeStr :=
  if forceBytes then SizeStr.raw bytes
  else SizeStr.scaled (fsValue bytes) (sizeUnits.get? (fsTier bytes.toNat))

/-! ### MeasureTransferRate, from the source:

    func MeasureTransferRate() func(int64) string {
        start := time.Now()
        return func(bytes int64) string {
            seconds := int64(time.Now().Sub(start).Seconds())
            if seconds < 1 { return fmt.Sprintf("%s/s", FileSizeFormat(bytes, false)) }
            bps := bytes / seconds
            return fmt.Sprintf("%s/s", FileSizeFormat(bps, false))
        }
    }

The closure is modelled as a function of the truncated whole-second
elapsed time (seconds = int64(elapsed.Seconds()), which is 0 whenever the
elapsed time is under one whole second).  Go integer division truncates
toward zero, which is Int.tdiv. -/

/-- The returned rate string (without the "/s" suffix, which both branches
append): the cumulative size when under one whole second, bytes/seconds
otherwise. -/
def measureRate (bytes seconds : ℤ) : SizeStr :=
  if seconds < 1 then FileSizeFormat bytes false
  else FileSizeFormat (Int.tdiv bytes seconds) false

/-! ### Control-flow model of the effectful part of the program.

The external world (file system, standard input, OAuth endpoints, the
Drive service) is an explicit environment of oracle results; each function
returns an Outcome together with the list of observable effects it
performed, in order. -/

/-- A cached or freshly exchanged OAuth token (the model never inspects
its contents, only whether one was obtained). -/
structure OAuthToken where
  raw : String
deriving DecidableEq

/-- Remote file metadata returned by the Drive service. -/
structure RemoteFile where
  id : String
  title : String
  fileSize : ℤ
deriving DecidableEq

/-- How a Go function ends: a normal return, a returned non-nil error
(the caller decides what to do with it), log.Fatalf (immediate process
termination with a non-zero status), or a runtime panic (nil dereference,
index out of range). -/
inductive Outcome (α : Type) where
  | ok (a : α)
  | errOut
  | fatal
  | panicked
deriving DecidableEq

/-- Observable effects of a run. -/
inductive Ev where
  | printAuthURL
  | readStdin
  | tokenExchange
  | saveTok
  | folderQuery (name : String)
  | folderCreate (name : String)
  | transferStart (parent : Option String)
  | finalList
deriving DecidableEq

/-- Result of os/user.Current(): success with a home directory, failure
returning a nil *User, or failure returning a non-nil *User alongside the
error. -/
inductive UserCurrentResult where
  | usrOk (home : String)
  | errNilUsr
  | errWithUsr (home : String)
deriving DecidableEq

/-- The oracle environment for one run: what each external call would
return.  cachedToken is some t exactly when the cache file opens and its
JSON decodes without error (tokenFromFile); folderQueryResult/
folderCreateResult give the Drive responses per folder name, none meaning
the call returned an error; uploadResult none means the resumable upload
failed with a transport-level error. -/
structure Env where
  userCurrent : UserCurrentResult
  cachedToken : Option OAuthToken
  stdinOk : Bool
  webExchange : Option OAuthToken
  saveCreateOk : Bool
  secretFile : Option String
  configParse : Bool
  driveNew : Bool
  mimeByExt : String → String
  folderQueryResult : String → Option (List String)
  folderCreateResult : String → Option String
  openOk : Bool
  statSize : Option ℤ
  uploadResult : Option RemoteFile
  finalListResult : Option (List RemoteFile)

/-- tokenCacheFile of the source: on user.Current() success it ignores the
home directory and returns the fixed relative path (url.QueryEscape leaves
"drive-api-cert.json" unchanged; the os.MkdirAll error is ignored).  In
the error branch the source does  return usr.HomeDir, err : with a nil
usr this dereference is a runtime panic; with a non-nil usr it returns a
path together with the non-nil error. -/
def tokenCacheFile (env : Env) : Outcome String :=
  match env.userCurrent with
  | UserCurrentResult.usrOk _ => Outcome.ok (".credentials/drive-api-cert.json")
  | UserCurrentResult.errNilUsr => Outcome.panicked
  | UserCurrentResult.errWithUsr _ => Outcome.errOut

/-- getTokenFromWeb of the source: prints the authorization URL, reads a
code from standard input (log.Fatalf when the read fails), exchanges it
(log.Fatalf when the exchange fails). -/
def getTokenFromWeb (env : Env) : Outcome OAuthToken × List Ev :=
  if env.stdinOk = false then (Outcome.fatal, [Ev.printAuthURL, Ev.readStdin])
  else
    match env.webExchange with
    | some t => (Outcome.ok t, [Ev.printAuthURL, Ev.readStdin, Ev.tokenExchange])
    | none => (Outcome.fatal, [Ev.printAuthURL, Ev.readStdin, Ev.tokenExchange])

/-- saveToken of the source: os.Create failure is log.Fatalf; the JSON
encode error is ignored. -/
def saveToken (env : Env) : Outcome Unit × List Ev :=
  if env.saveCreateOk then (Outcome.ok (), [Ev.saveTok])
  else (Outcome.fatal, [Ev.saveTok])

/-- getClient of the source: a tokenCacheFile error is log.Fatalf; a
cached token is used directly (config.Client is a pure construction, no
events); otherwise the interactive flow runs and the fresh token is
persisted.  tokenCacheFile never pans out to errOut with a nil user (it
panics first), and getTokenFromWeb/saveToken only produce ok or fatal, so
the wildcard arms below only ever see fatal. -/
def getClient (env : Env) : Outcome OAuthToken × List Ev :=
  match tokenCacheFile env with
  | Outcome.panicked => (Outcome.panicked, [])
  | Outcome.ok _ =>
    match env.cachedToken with
    | some t => (Outcome.ok t, [])
    | none =>
      match getTokenFromWeb env with
      | (Outcome.ok t, evs) =>
        match saveToken env with
        | (Outcome.ok _, evs2) => (Outcome.ok t, evs ++ evs2)
        | (_, evs2) => (Outcome.fatal, evs ++ evs2)
      | (_, evs) => (Outcome.fatal, evs)
  | _ => (Outcome.fatal, [])

/-- getOrCreateFolder of the source: empty name returns the empty id with
no remote call; a query error is log.Fatalf; a nonempty result list gives
its first id; otherwise a creation request is issued, and when the
creation errors the code only prints a message and then dereferences the
nil response (folderId = r.Id with the shadowed r nil): a runtime panic. -/
def getOrCreateFolder (env : Env) (folderName : String) : Outcome String × List Ev :=
  if folderName = "" then (Outcome.ok "", [])
  else
    match env.folderQueryResult folderName with
    | none => (Outcome.fatal, [Ev.folderQuery folderName])
    | some (id1 :: _) => (Outcome.ok id1, [Ev.folderQuery folderName])
    | some [] =>
      match env.folderCreateResult folderName with
      | some newId =>
        (Outcome.ok newId, [Ev.folderQuery folderName, Ev.folderCreate folderName])
      | none =>
        (Outcome.panicked, [Ev.folderQuery folderName, Ev.folderCreate folderName])

/-- uploadFile of the source: open failure and stat failure return the
error immediately (before any folder resolution); then the parent folder
is resolved, the descriptor gets the parent only when the resolved id is
nonempty, and the resumable transfer is issued; a transport failure
prints a message and returns the error. -/
def uploadFile (env : Env) (_title _description parentName _mimeType _filename : String) :
    Outcome RemoteFile × List Ev :=
  if env.openOk = false then (Outcome.errOut, [])
  else
    match env.statSize with
    | none => (Outcome.errOut, [])
    | some _size =>
      match getOrCreateFolder env parentName with
      | (Outcome.ok parentId, evs) =>
        let parent : Option String := if parentId = "" then none else some parentId
        match env.uploadResult with
        | some r => (Outcome.ok r, evs ++ [Ev.transferStart parent])
        | none => (Outcome.errOut, evs ++ [Ev.transferStart parent])
      | (Outcome.fatal, evs) => (Outcome.fatal, evs)
      | (Outcome.panicked, evs) => (Outcome.panicked, evs)
      | (Outcome.errOut, evs) => (Outcome.errOut, evs)

/-- Model of path/filepath.Base (Go standard library collaborator): the
last path element. -/
def baseName (p : String) : String := ((p.splitOn "/").getLast?).getD "."

/-- Model of path/filepath.Ext (Go standard library collaborator): the
suffix of the last element starting at its final dot, "" when there is
none. -/
def extOf (p : String) : String :=
  let r := p.toList.reverse
  let pre := r.takeWhile (fun c => !(c == '.' || c == '/'))
  match r.drop pre.length with
  | '.' :: _ => String.mk ('.' :: pre.reverse)
  | _ => ""

/-- The MIME computation of main: default application/octet-stream, the
extension lookup (mime.TypeByExtension, an external collaborator in the
environment) when there is an extension, falling back to the default when
the lookup returns "". -/
def mimeOf (env : Env) (path : String) : String :=
  let ext := extOf path
  let mt := if ext = "" then "application/octet-stream" else env.mimeByExt ext
  if mt = "" then "application/octet-stream" else mt

/-- main of the source: read client_secret.json (absence fatal), parse
the config (failure fatal), getClient, drive.New (failure fatal), compute
the output title and MIME type, call uploadFile IGNORING its returned
error, then list the catalog (failure fatal).  A panic inside uploadFile
or getClient aborts the run as a panic. -/
def mainRun (env : Env) (inputPath outputFile folderNameArg : String) :
    Outcome Unit × List Ev :=
  match env.secretFile with
  | none => (Outcome.fatal, [])
  | some _ =>
    if env.configParse = false then (Outcome.fatal, [])
    else
      match getClient env with
      | (Outcome.ok _tok, evs1) =>
        if env.driveNew = false then (Outcome.fatal, evs1)
        else
          let outputTitle := if outputFile = "" then baseName inputPath else outputFile
          let mt := mimeOf env inputPath
          match uploadFile env outputTitle "" folderNameArg mt inputPath with
          | (Outcome.panicked, evs2) => (Outcome.panicked, evs1 ++ evs2)
          | (Outcome.fatal, evs2) => (Outcome.fatal, evs1 ++ evs2)
          | (_, evs2) =>
            match env.finalListResult with
            | none => (Outcome.fatal, evs1 ++ evs2 ++ [Ev.finalList])
            | some _ => (Outcome.ok (), evs1 ++ evs2 ++ [Ev.finalList])
      | (Outcome.panicked, evs1) => (Outcome.panicked, evs1)
      | (_, evs1) => (Outcome.fatal, evs1)

/-- A fixed token for concrete runs. -/
def tok0 : OAuthToken := ⟨"tok"⟩

/-- A fully successful environment: cache hit, all remote calls succeed. -/
def envOk : Env where
  userCurrent := UserCurrentResult.usrOk "/home/u"
  cachedToken := some tok0
  stdinOk := true
  webExchange := some tok0
  saveCreateOk := true
  secretFile := some "secret"
  configParse := true
  driveNew := true
  mimeByExt := fun _ => "text/html"
  folderQueryResult := fun _ => some ["folder-1"]
  folderCreateResult := fun _ => some "folder-new"
  openOk := true
  statSize := some 4096
  uploadResult := some ⟨"file-1", "index.html", 4096⟩
  finalListResult := some [⟨"file-1", "index.html", 4096⟩]

/-- envOk with the upload failing at the transport level. -/
def envUploadFail : Env := { envOk with uploadResult := none }

/-- envOk with no folder matching the query and folder creation failing. -/
def envFolderCreateFail : Env :=
  { envOk with folderQueryResult := fun _ => some []
               folderCreateResult := fun _ => none }

/-- envOk with an empty (absent/unreadable/undecodable) token cache. -/
def envCacheMiss : Env := { envOk with cachedToken := none }

/-- envOk with user.Current failing and returning a nil *User. -/
def envNilUser : Env := { envOk with userCurrent := UserCurrentResult.errNilUsr }

/-- envOk with the local file unopenable. -/
def envOpenFail : Env := { envOk with openOk := false }

/-- envOk with the stat after a successful open failing. -/
def envStatFail : Env := { envOk with statSize := none }


/-! ## Lemmas about the decimal digit model -/

theorem decDigitsCore_eq_digits (fuel : ℕ) :
    ∀ n : ℕ, n ≤ fuel → decDigitsCore fuel n = Nat.digits 10 n := by
  induction fuel with
  | zero =>
    intro n hn
    interval_cases n
    simp [decDigitsCore]
  | succ f ih =>
    intro n hn
    by_cases h0 : n = 0
    · subst h0; simp [decDigitsCore]
    · have hpos : 0 < n := Nat.pos_of_ne_zero h0
      have hdiv : n / 10 ≤ f := by
        have := Nat.div_lt_self hpos (by norm_num : (1:ℕ) < 10)
        omega
      rw [decDigitsCore, if_neg h0, ih (n / 10) hdiv,
        Nat.digits_def' (by norm_num : (1:ℕ) < 10) hpos]

theorem decDigitsLE_eq_digits (n : ℕ) : decDigitsLE n = Nat.digits 10 n :=
  decDigitsCore_eq_digits n n le_rfl

theorem decDigits_of_ne_zero {n : ℕ} (h : n ≠ 0) :
    decDigits n = ((Nat.digits 10 n).map Nat.digitChar).reverse := by
  rw [decDigits, if_neg h, decDigitsLE_eq_digits]

theorem decDigits_ne_nil (n : ℕ) : decDigits n ≠ [] := by
  by_cases h : n = 0
  · subst h; simp [decDigits]
  · rw [decDigits_of_ne_zero h]
    simp [Nat.digits_ne_nil_iff_ne_zero, h]

theorem decDigits_length_le_three {n : ℕ} (h : n < 1000) :
    (decDigits n).length ≤ 3 := by
  by_cases h0 : n = 0
  · subst h0; simp [decDigits]
  · rw [decDigits_of_ne_zero h0]
    simp only [List.length_reverse, List.length_map]
    rw [Nat.digits_len 10 n (by norm_num) h0]
    have : Nat.log 10 n < 3 :=
      Nat.log_lt_of_lt_pow h0 (by norm_num at h ⊢; exact h)
    omega

theorem decDigits_digit_chars {n : ℕ} {c : Char} (hc : c ∈ decDigits n) :
    ∃ d : ℕ, d < 10 ∧ c = Nat.digitChar d := by
  by_cases h0 : n = 0
  · subst h0
    simp [decDigits] at hc
    exact ⟨0, by norm_num, by rw [hc]; rfl⟩
  · rw [decDigits_of_ne_zero h0] at hc
    simp only [List.mem_reverse, List.mem_map] at hc
    obtain ⟨d, hd, rfl⟩ := hc
    exact ⟨d, Nat.digits_lt_base (by norm_num) hd, rfl⟩

theorem digitChar_ne_comma {d : ℕ} (hd : d < 10) : Nat.digitChar d ≠ ',' := by
  interval_cases d <;> decide

theorem decDigits_no_comma {n : ℕ} {c : Char} (hc : c ∈ decDigits n) : c ≠ ',' := by
  obtain ⟨d, hd, rfl⟩ := decDigits_digit_chars hc
  exact digitChar_ne_comma hd

theorem pad3_no_comma {s : List Char} (hs : ∀ c ∈ s, c ≠ ',') :
    ∀ c ∈ pad3 s, c ≠ ',' := by
  intro c hc
  rw [pad3] at hc
  split_ifs at hc
  · rw [List.mem_cons] at hc
    rcases hc with rfl | hc
    · decide
    · exact hs c hc
  · rw [List.mem_cons, List.mem_cons] at hc
    rcases hc with rfl | rfl | hc
    · decide
    · decide
    · exact hs c hc
  · exact hs c hc

theorem pad3_length_three {s : List Char} (h1 : 1 ≤ s.length) (h3 : s.length ≤ 3) :
    (pad3 s).length = 3 := by
  rw [pad3]
  split_ifs with ha hb
  · simp [ha]
  · simp [hb]
  · omega

set_option maxRecDepth 4000 in
theorem pad3_decDigits : ∀ m : ℕ, m < 1000 →
    pad3 (decDigits m) =
      [Nat.digitChar (m / 100), Nat.digitChar (m / 10 % 10), Nat.digitChar (m % 10)] := by
  decide

theorem decDigits_split {n : ℕ} (h : 999 < n) :
    decDigits n = decDigits (n / 1000) ++ pad3 (decDigits (n % 1000)) := by
  have e1 : Nat.digits 10 n = n % 10 :: Nat.digits 10 (n / 10) :=
    Nat.digits_def' (by norm_num) (by omega)
  have e2 : Nat.digits 10 (n / 10) = n / 10 % 10 :: Nat.digits 10 (n / 100) := by
    rw [Nat.digits_def' (by norm_num : (1:ℕ) < 10) (by omega : 0 < n / 10)]
    rw [Nat.div_div_eq_div_mul]
  have e3 : Nat.digits 10 (n / 100) = n / 100 % 10 :: Nat.digits 10 (n / 1000) := by
    rw [Nat.digits_def' (by norm_num : (1:ℕ) < 10) (by omega : 0 < n / 100)]
    rw [Nat.div_div_eq_div_mul]
  rw [decDigits_of_ne_zero (by omega : n ≠ 0), e1, e2, e3,
    decDigits_of_ne_zero (by omega : n / 1000 ≠ 0),
    pad3_decDigits (n % 1000) (by omega)]
  simp only [List.map_cons, List.reverse_cons, List.append_assoc]
  congr 1
  have c1 : n % 1000 / 100 = n / 100 % 10 := by omega
  have c2 : n % 1000 / 10 % 10 = n / 10 % 10 := by omega
  have c3 : n % 1000 % 10 = n % 10 := by omega
  rw [c1, c2, c3]
  simp

theorem commaGroupsCore_congr :
    ∀ f1 f2 v : ℕ, v ≤ f1 → v ≤ f2 → commaGroupsCore f1 v = commaGroupsCore f2 v := by
  intro f1
  induction f1 with
  | zero =>
    intro f2 v h1 _
    interval_cases v
    cases f2 with
    | zero => rfl
    | succ g => simp [commaGroupsCore]
  | succ f ih =>
    intro f2 v h1 h2
    cases f2 with
    | zero =>
      interval_cases v
      simp [commaGroupsCore]
    | succ g =>
      by_cases h : 999 < v
      · rw [commaGroupsCore, commaGroupsCore, if_pos h, if_pos h]
        have hd : v / 1000 ≤ f := by omega
        have hd2 : v / 1000 ≤ g := by omega
        rw [ih g (v / 1000) hd hd2]
      · rw [commaGroupsCore, commaGroupsCore, if_neg h, if_neg h]

theorem commaGroups_eq (v : ℕ) :
    commaGroups v =
      if 999 < v then commaGroups (v / 1000) ++ [pad3 (decDigits (v % 1000))]
      else [decDigits v] := by
  by_cases h : 999 < v
  · rw [if_pos h]
    obtain ⟨m, rfl⟩ : ∃ m, v = m + 1 := ⟨v - 1, by omega⟩
    rw [commaGroups, commaGroupsCore, if_pos h]
    rw [commaGroupsCore_congr m ((m + 1) / 1000) ((m + 1) / 1000) (by omega) le_rfl]
    rfl
  · rw [if_neg h]
    cases v with
    | zero => rfl
    | succ m =>
      rw [commaGroups, commaGroupsCore, if_neg h]

theorem commaGroups_ne_nil (n : ℕ) : commaGroups n ≠ [] := by
  rw [commaGroups_eq]
  split_ifs <;> simp

theorem commaGroups_flatten (n : ℕ) : (commaGroups n).flatten = decDigits n := by
  induction n using Nat.strong_induction_on with
  | _ n ih =>
    rw [commaGroups_eq]
    by_cases h : 999 < n
    · rw [if_pos h, List.flatten_append, ih (n / 1000) (by omega)]
      simp only [List.flatten_cons, List.flatten_nil, List.append_nil]
      exact (decDigits_split h).symm
    · rw [if_neg h]
      simp

theorem commaGroups_no_comma (n : ℕ) :
    ∀ g ∈ commaGroups n, ∀ c ∈ g, c ≠ ',' := by
  induction n using Nat.strong_induction_on with
  | _ n ih =>
    rw [commaGroups_eq]
    by_cases h : 999 < n
    · rw [if_pos h]
      intro g hg
      rw [List.mem_append] at hg
      rcases hg with hg | hg
      · exact ih (n / 1000) (by omega) g hg
      · rw [List.mem_singleton] at hg
        subst hg
        exact pad3_no_comma (fun c hc => decDigits_no_comma hc)
    · rw [if_neg h]
      intro g hg
      rw [List.mem_singleton] at hg
      subst hg
      exact fun c hc => decDigits_no_comma hc

theorem joinComma_single (g : List Char) : joinComma [g] = g := by
  simp [joinComma]

theorem joinComma_append_single {gs : List (List Char)} (h : gs ≠ []) (g : List Char) :
    joinComma (gs ++ [g]) = joinComma gs ++ ',' :: g := by
  induction gs with
  | nil => exact absurd rfl h
  | cons a tl ih =>
    cases tl with
    | nil =>
      simp [joinComma, List.intersperse_cons_cons, List.intersperse_singleton]
    | cons b tl2 =>
      have ih2 := ih (by simp)
      simp only [joinComma, List.cons_append, List.intersperse_cons_cons,
        List.flatten_cons] at ih2 ⊢
      rw [ih2]
      simp

theorem stripSep_joinComma {gs : List (List Char)}
    (h : ∀ g ∈ gs, ∀ c ∈ g, c ≠ ',') :
    stripSep (joinComma gs) = gs.flatten := by
  induction gs with
  | nil => rfl
  | cons a tl ih =>
    cases tl with
    | nil =>
      simp only [joinComma, List.intersperse_singleton, List.flatten_cons,
        List.flatten_nil, List.append_nil, stripSep]
      rw [List.filter_eq_self.mpr]
      intro c hc
      have := h a (by simp) c hc
      simpa using this
    | cons b tl2 =>
      have ih2 := ih (fun g hg => h g (List.mem_cons_of_mem a hg))
      simp only [joinComma, List.intersperse_cons_cons, List.flatten_cons] at ih2 ⊢
      simp only [stripSep, List.filter_append] at ih2 ⊢
      have ha : List.filter (fun c => decide (c ≠ ',')) a = a := by
        rw [List.filter_eq_self]
        intro c hc
        have := h a (by simp) c hc
        simpa using this
      have hcomma : List.filter (fun c => decide (c ≠ ',')) [','] = [] := by decide
      rw [ha, hcomma, List.nil_append, ih2]

theorem sepEvery3_short {l : List Char} (h : l.length ≤ 3) : sepEvery3 l = l := by
  rcases l with _ | ⟨a, _ | ⟨b, _ | ⟨c, _ | ⟨d, t⟩⟩⟩⟩
  · rfl
  · rfl
  · rfl
  · rfl
  · simp at h

theorem specGrouped_append_three {xs : List Char} (h : xs ≠ []) (a b c : Char) :
    specGrouped (xs ++ [a, b, c]) = specGrouped xs ++ ',' :: [a, b, c] := by
  obtain ⟨y, ys, hrev⟩ : ∃ y ys, xs.reverse = y :: ys := by
    cases hx : xs.reverse with
    | nil => exact absurd (List.reverse_eq_nil_iff.mp hx) h
    | cons y ys => exact ⟨y, ys, rfl⟩
  rw [specGrouped, specGrouped, List.reverse_append, hrev]
  show (sepEvery3 (c :: b :: a :: y :: ys)).reverse = _
  rw [sepEvery3]
  simp

theorem joinComma_eq_specGrouped (n : ℕ) :
    joinComma (commaGroups n) = specGrouped (decDigits n) := by
  induction n using Nat.strong_induction_on with
  | _ n ih =>
    rw [commaGroups_eq]
    by_cases h : 999 < n
    · rw [if_pos h, joinComma_append_single (commaGroups_ne_nil _) _,
        ih (n / 1000) (by omega), decDigits_split h]
      have h1 : 1 ≤ (decDigits (n % 1000)).length := by
        have := decDigits_ne_nil (n % 1000)
        cases hd : decDigits (n % 1000) with
        | nil => exact absurd hd this
        | cons x xs => simp
      have hlen : (pad3 (decDigits (n % 1000))).length = 3 :=
        pad3_length_three h1 (decDigits_length_le_three (by omega))
      obtain ⟨a, b, c, habc⟩ := List.length_eq_three.mp hlen
      rw [habc]
      exact (specGrouped_append_three (decDigits_ne_nil _) a b c).symm
    · rw [if_neg h, joinComma_single]
      have hle : ((decDigits n).reverse).length ≤ 3 := by
        rw [List.length_reverse]
        exact decDigits_length_le_three (by omega)
      rw [specGrouped, sepEvery3_short hle, List.reverse_reverse]

theorem charVal_digitChar {d : ℕ} (hd : d < 10) : charVal (Nat.digitChar d) = d := by
  interval_cases d <;> decide

theorem parseDec_aux (L : List ℕ) (hL : ∀ d ∈ L, d < 10) :
    ∀ acc : ℕ,
      List.foldl (fun a c => a * 10 + charVal c) acc ((L.map Nat.digitChar).reverse)
        = acc * 10 ^ L.length + Nat.ofDigits 10 L := by
  induction L with
  | nil => intro acc; simp
  | cons d T ihT =>
    intro acc
    simp only [List.map_cons, List.reverse_cons, List.foldl_append, List.foldl_cons,
      List.foldl_nil]
    rw [ihT (fun x hx => hL x (List.mem_cons_of_mem d hx)) acc,
      charVal_digitChar (hL d (List.mem_cons_self d T)), Nat.ofDigits_cons]
    simp only [List.length_cons]
    ring

theorem parseDec_decDigits (n : ℕ) : parseDec (decDigits n) = n := by
  by_cases h0 : n = 0
  · subst h0; decide
  · rw [decDigits_of_ne_zero h0, parseDec,
      parseDec_aux (Nat.digits 10 n) (fun d hd => Nat.digits_lt_base (by norm_num) hd) 0,
      Nat.ofDigits_digits]
    ring

theorem int64wrap_neg_of_range {v : ℤ} (h1 : -(2 ^ 63) < v) (h2 : v < 0) :
    int64wrap (0 - v) = -v := by
  have e64 : (2 : ℤ) ^ 64 = 2 ^ 63 + 2 ^ 63 := by ring
  rw [int64wrap]
  have e : (0 : ℤ) - v + 2 ^ 63 = -v + 2 ^ 63 := by ring
  rw [e, Int.emod_eq_of_lt (by omega) (by rw [e64]; omega)]
  ring

/-! ## Lemmas about the FileSizeFormat loop -/

theorem fsLoopCore_le_pow :
    ∀ fuel b i : ℕ, b ≤ 1000 ^ (i + fuel + 1) → b ≤ 1000 ^ (fsLoopCore fuel b i + 1) := by
  intro fuel
  induction fuel with
  | zero =>
    intro b i h
    rw [fsLoopCore]
    exact h
  | succ f ih =>
    intro b i h
    rw [fsLoopCore]
    by_cases hc : 1000 ^ (i + 1) < b
    · rw [if_pos hc]
      apply ih b (i + 1)
      have e : i + 1 + f + 1 = i + (f + 1) + 1 := by omega
      rw [e]
      exact h
    · rw [if_neg hc]
      omega

theorem fsTier_le_pow (b : ℕ) : b ≤ 1000 ^ (fsTier b + 1) := by
  rw [fsTier]
  apply fsLoopCore_le_pow b b 0
  calc b ≤ 2 ^ b := le_of_lt (Nat.lt_two_pow b)
    _ ≤ 1000 ^ b := Nat.pow_le_pow_left (by norm_num) b
    _ ≤ 1000 ^ (0 + b + 1) := Nat.pow_le_pow_right (by norm_num) (by omega)

theorem fsLoopCore_le_k :
    ∀ fuel b i k : ℕ, b ≤ 1000 ^ (k + 1) → i ≤ k → fsLoopCore fuel b i ≤ k := by
  intro fuel
  induction fuel with
  | zero =>
    intro b i k _ hik
    rw [fsLoopCore]
    exact hik
  | succ f ih =>
    intro b i k h hik
    rw [fsLoopCore]
    by_cases hc : 1000 ^ (i + 1) < b
    · rw [if_pos hc]
      apply ih b (i + 1) k h
      rcases Nat.lt_or_ge i k with h1 | h1
      · omega
      · have hik2 : i = k := le_antisymm hik h1
        subst hik2
        omega
    · rw [if_neg hc]
      exact hik

theorem fsTier_le_five {b : ℕ} (h : b ≤ 1000 ^ 6) : fsTier b ≤ 5 := by
  rw [fsTier]
  exact fsLoopCore_le_k b b 0 5 h (by omega)

/-! ## Claim theorems: the formatting functions -/

/-- C1, counterexample: at b = 1000 the FileSizeFormat loop guard
value > 1000 is already false, so the unit stays "B" (tier 0, not the
top tier) while the numeric part is exactly 1000, which is not in
[0, 1000).  Moreover at b = 2·10^18 (representable in int64) the loop
runs six times and the unit index runs past the six-element units slice:
no unit is selected at all (an index-out-of-range panic in Go).  The
claim as stated is therefore false at b = 1000. -/
theorem fileSizeFormat_boundary_cex :
    FileSizeFormat 1000 false = SizeStr.scaled 1000 (some "B") ∧
    ¬ fsValue 1000 < 1000 ∧ fsTier (Int.toNat 1000) ≠ 5 ∧
    sizeUnits.get? (fsTier (Int.toNat (2 * 10 ^ 18))) = none := by
  have ht : fsTier (Int.toNat 1000) = 0 := by decide
  have hv : fsValue 1000 = 1000 := by
    rw [fsValue, ht]
    norm_num
  refine ⟨?_, by rw [hv]; exact lt_irrefl _, by rw [ht]; omega, by decide⟩
  rw [FileSizeFormat, if_neg (by decide), hv, ht]
  rfl

/-- C1 (amended): for every byte count b with 0 ≤ b ≤ 1000^6, the
formatter selects exactly one unit from the units slice and the numeric
part lies in the closed interval [0, 1000] — closed, not half-open: at
each tier boundary (e.g. b = 1000) the numeric part is exactly 1000 with
the smaller unit, and the PB tier's numeric part also never exceeds 1000.
(For b > 1000^6 the unit index runs past the units slice, an
index-out-of-range panic in the Go code, modelled by get? = none.) -/
theorem fileSizeFormat_unit_and_range (b : ℤ) (h0 : 0 ≤ b) (h1 : b ≤ 1000 ^ 6) :
    (∃ u : String, u ∈ sizeUnits ∧
      FileSizeFormat b false = SizeStr.scaled (fsValue b) (some u)) ∧
    0 ≤ fsValue b ∧ fsValue b ≤ 1000 := by
  have hpow : (1000 : ℤ) ^ 6 = 1000000000000000000 := by norm_num
  have hnat : b.toNat ≤ 1000 ^ 6 := by
    have : (1000 : ℕ) ^ 6 = 1000000000000000000 := by norm_num
    omega
  have htier : fsTier b.toNat ≤ 5 := fsTier_le_five hnat
  obtain ⟨u, hu, hmem⟩ :
      ∃ u, sizeUnits.get? (fsTier b.toNat) = some u ∧ u ∈ sizeUnits := by
    set t := fsTier b.toNat with ht
    interval_cases t
    · exact ⟨"B", rfl, by decide⟩
    · exact ⟨"KB", rfl, by decide⟩
    · exact ⟨"MB", rfl, by decide⟩
    · exact ⟨"GB", rfl, by decide⟩
    · exact ⟨"TB", rfl, by decide⟩
    · exact ⟨"PB", rfl, by decide⟩
  refine ⟨⟨u, hmem, ?_⟩, ?_, ?_⟩
  · rw [FileSizeFormat, if_neg (by decide), hu]
  · exact div_nonneg (by exact_mod_cast h0) (by positivity)
  · have hble : (b : ℚ) ≤ 1000 ^ (fsTier b.toNat + 1) := by
      have h2 := fsTier_le_pow b.toNat
      have hcast : ((b.toNat : ℚ)) = (b : ℚ) := by
        have := Int.toNat_of_nonneg h0
        exact_mod_cast congrArg (fun z : ℤ => (z : ℚ)) this
      calc (b : ℚ) = (b.toNat : ℚ) := hcast.symm
        _ ≤ ((1000 ^ (fsTier b.toNat + 1) : ℕ) : ℚ) := by exact_mod_cast h2
        _ = 1000 ^ (fsTier b.toNat + 1) := by push_cast; ring
    rw [fsValue, div_le_iff₀ (by positivity)]
    calc (b : ℚ) ≤ 1000 ^ (fsTier b.toNat + 1) := hble
      _ = 1000 * 1000 ^ fsTier b.toNat := by ring

/-- C1 witness: the amended theorem applied at b = 1500. -/
theorem fileSizeFormat_unit_and_range_witness :
    (0 : ℤ) ≤ 1500 ∧ (1500 : ℤ) ≤ 1000 ^ 6 ∧
      ((∃ u : String, u ∈ sizeUnits ∧
          FileSizeFormat 1500 false = SizeStr.scaled (fsValue 1500) (some u)) ∧
        0 ≤ fsValue 1500 ∧ fsValue 1500 ≤ 1000) :=
  ⟨by norm_num, by norm_num, fileSizeFormat_unit_and_range 1500 (by norm_num) (by norm_num)⟩

/-- C4, counterexample: at v = -2^63 the int64 negation 0 - v wraps back
to -2^63, the grouping loop is skipped, and Comma returns
"--9223372036854775808" — not "-" followed by the three-digit grouping of
the absolute value, which is what the claim requires. -/
theorem comma_min_int64_cex :
    Comma (-(2 ^ 63)) = "--9223372036854775808" ∧
    CommaChars (-(2 ^ 63)) ≠
      (if (-(2 ^ 63) : ℤ) < 0 then ['-'] else []) ++
        specGrouped (decDigits (Int.natAbs (-(2 ^ 63)))) := by
  constructor
  · decide
  · decide

/-- C4 (amended): for every int64 v other than MinInt64 = -2^63, Comma
inserts a separator every three digits from the right of the decimal
representation of the absolute value and preserves the sign: for v < 0
the result is "-" followed by the grouping of the absolute value, and for
v ≥ 0 it is the grouping of v with no sign character.  (At v = -2^63 the
int64 negation overflows and the result is "--9223372036854775808".) -/
theorem comma_sign_and_grouping (v : ℤ) (h1 : -(2 ^ 63) < v) (h2 : v < 2 ^ 63) :
    CommaChars v = (if v < 0 then ['-'] else []) ++ specGrouped (decDigits v.natAbs) := by
  rw [CommaChars]
  by_cases hv : v < 0
  · rw [if_pos hv, if_pos hv, commaBody, int64wrap_neg_of_range h1 hv,
      if_neg (by omega : ¬ -v < 0), joinComma_eq_specGrouped]
    have e : Int.toNat (-v) = v.natAbs := by omega
    rw [e]
  · rw [if_neg hv, if_neg hv, commaBody, if_neg hv, joinComma_eq_specGrouped]
    have e : Int.toNat v = v.natAbs := by omega
    rw [e]

/-- C4 witness: the amended theorem applied at v = -1234567. -/
theorem comma_sign_and_grouping_witness :
    (-(2 ^ 63) : ℤ) < -1234567 ∧ (-1234567 : ℤ) < 2 ^ 63 ∧
      CommaChars (-1234567) =
        (if (-1234567 : ℤ) < 0 then ['-'] else []) ++
          specGrouped (decDigits (Int.natAbs (-1234567))) :=
  ⟨by norm_num, by norm_num, comma_sign_and_grouping (-1234567) (by norm_num) (by norm_num)⟩

/-- C5: Comma satisfies the spec's examples — Comma(1234567) =
"1,234,567" and Comma(-42) = "-42" — and for every non-negative int64 v,
stripping the "," separators from Comma(v) and parsing the result as a
decimal integer recovers v. -/
theorem comma_examples_and_roundtrip :
    Comma 1234567 = "1,234,567" ∧ Comma (-42) = "-42" ∧
      ∀ v : ℤ, 0 ≤ v → v < 2 ^ 63 →
        (parseDec (stripSep (CommaChars v)) : ℤ) = v := by
  refine ⟨by decide, by decide, ?_⟩
  intro v h0 _h2
  rw [CommaChars, if_neg (by omega : ¬ v < 0), if_neg (by omega : ¬ v < 0),
    List.nil_append, commaBody, if_neg (by omega : ¬ v < 0),
    stripSep_joinComma (commaGroups_no_comma _), commaGroups_flatten, parseDec_decDigits]
  omega

/-- C5 witness: the round-trip applied at v = 42. -/
theorem comma_roundtrip_witness :
    (0 : ℤ) ≤ 42 ∧ (42 : ℤ) < 2 ^ 63 ∧
      (parseDec (stripSep (CommaChars 42)) : ℤ) = 42 :=
  ⟨by norm_num, by norm_num, comma_examples_and_roundtrip.2.2 42 (by norm_num) (by norm_num)⟩

/-- C6: whenever the truncated elapsed whole-second count is under one
(in particular during the entire first sub-second window, where it is 0),
the rate function returns the cumulative size FileSizeFormat(bytes)
instead of computing bytes/seconds, so no division happens and calling it
with bytes = 0 and seconds = 0 never divides by zero. -/
theorem measureRate_subsecond_no_div (bytes seconds : ℤ) (h : seconds < 1) :
    measureRate bytes seconds = FileSizeFormat bytes false := by
  rw [measureRate, if_pos h]

/-- C6 witness: the sub-second guard applied at bytes = 0, seconds = 0. -/
theorem measureRate_subsecond_no_div_witness :
    (0 : ℤ) < 1 ∧ measureRate 0 0 = FileSizeFormat 0 false :=
  ⟨by norm_num, measureRate_subsecond_no_div 0 0 (by norm_num)⟩

/-! ## Claim theorems: the control flow -/

theorem getTokenFromWeb_events (env : Env) :
    Ev.printAuthURL ∈ (getTokenFromWeb env).2 ∧ Ev.readStdin ∈ (getTokenFromWeb env).2 := by
  rw [getTokenFromWeb]
  by_cases h : env.stdinOk = false
  · rw [if_pos h]
    exact ⟨by simp, by simp⟩
  · rw [if_neg h]
    cases env.webExchange <;> exact ⟨by simp, by simp⟩

/-- C2, counterexample: a run in which every step succeeds except the
upload transfer (envUploadFail.uploadResult = none) still reaches the
post-upload catalog listing and finishes with a normal (zero) exit
status — mainRun returns Outcome.ok and the event trace ends with
Ev.finalList — contradicting the claimed immediate non-zero termination. -/
theorem upload_failure_cex :
    envUploadFail.uploadResult = none ∧
      (mainRun envUploadFail "./index.html" "" "user1").1 = Outcome.ok () ∧
      Ev.finalList ∈ (mainRun envUploadFail "./index.html" "" "user1").2 := by
  refine ⟨rfl, ?_, ?_⟩ <;> decide

/-- C2 (amended): when the upload transfer fails with a transport-level
error, uploadFile prints a diagnostic and returns the error, but main
ignores the returned value: the post-upload catalog listing step is
always reached (Ev.finalList is in the trace), and the process exit
status is determined by the listing step alone — the run exits normally
exactly when the final listing succeeds, the upload failure
notwithstanding. -/
theorem upload_failure_reaches_listing (env : Env)
    (inputPath outputFile folderNameArg : String) (t : OAuthToken) (pid : String)
    (hs : env.secretFile.isSome = true)
    (hc : env.configParse = true)
    (hg : (getClient env).1 = Outcome.ok t)
    (hd : env.driveNew = true)
    (ho : env.openOk = true)
    (hst : env.statSize.isSome = true)
    (hf : (getOrCreateFolder env folderNameArg).1 = Outcome.ok pid)
    (hu : env.uploadResult = none) :
    Ev.finalList ∈ (mainRun env inputPath outputFile folderNameArg).2 ∧
      ((mainRun env inputPath outputFile folderNameArg).1 = Outcome.ok () ↔
        env.finalListResult.isSome = true) := by
  obtain ⟨sec, hsec⟩ := Option.isSome_iff_exists.mp hs
  obtain ⟨sz, hsz⟩ := Option.isSome_iff_exists.mp hst
  rcases hgc : getClient env with ⟨o1, evs1⟩
  rw [hgc] at hg
  simp only at hg
  subst hg
  rcases hfold : getOrCreateFolder env folderNameArg with ⟨o2, evs2⟩
  rw [hfold] at hf
  simp only at hf
  subst hf
  have hup : ∀ ti de mi fi : String,
      uploadFile env ti de folderNameArg mi fi =
        (Outcome.errOut, evs2 ++ [Ev.transferStart (if pid = "" then none else some pid)]) := by
    intro ti de mi fi
    rw [uploadFile, if_neg (by simp [ho])]
    simp only [hsz, hfold, hu]
  cases hfl : env.finalListResult with
  | none =>
    constructor
    · simp [mainRun, hsec, hc, hd, hgc, hup, hfl]
    · simp [mainRun, hsec, hc, hd, hgc, hup, hfl]
  | some l =>
    constructor
    · simp [mainRun, hsec, hc, hd, hgc, hup, hfl]
    · simp [mainRun, hsec, hc, hd, hgc, hup, hfl]

/-- C2 witness: the amended theorem applied to the concrete failing-upload
run envUploadFail. -/
theorem upload_failure_reaches_listing_witness :
    envUploadFail.secretFile.isSome = true ∧
      envUploadFail.configParse = true ∧
      (getClient envUploadFail).1 = Outcome.ok tok0 ∧
      envUploadFail.driveNew = true ∧
      envUploadFail.openOk = true ∧
      envUploadFail.statSize.isSome = true ∧
      (getOrCreateFolder envUploadFail "user1").1 = Outcome.ok "folder-1" ∧
      envUploadFail.uploadResult = none ∧
      (Ev.finalList ∈ (mainRun envUploadFail "./index.html" "" "user1").2 ∧
        ((mainRun envUploadFail "./index.html" "" "user1").1 = Outcome.ok () ↔
          envUploadFail.finalListResult.isSome = true)) :=
  ⟨rfl, rfl, by decide, rfl, rfl, rfl, by decide, rfl,
    upload_failure_reaches_listing envUploadFail "./index.html" "" "user1" tok0 "folder-1"
      rfl rfl (by decide) rfl rfl rfl (by decide) rfl⟩

/-- C3: the claim is right about the intent but the code is wrong.  When
the folder name is nonempty, no existing folder matches, and the creation
request fails, the source prints a non-fatal message (showing the intent
to continue) but then reads r.Id from the shadowed nil creation response:
a nil-pointer dereference.  The run panics inside getOrCreateFolder, the
transfer never starts, and main aborts — the upload does not proceed
without a parent. -/
theorem folder_create_failure_panics :
    getOrCreateFolder envFolderCreateFail "archive" =
      (Outcome.panicked, [Ev.folderQuery "archive", Ev.folderCreate "archive"]) ∧
    (uploadFile envFolderCreateFail "t" "" "archive" "text/html" "./index.html").1 =
      Outcome.panicked ∧
    (mainRun envFolderCreateFail "./index.html" "" "archive").1 = Outcome.panicked ∧
    ¬ Ev.transferStart none ∈ (mainRun envFolderCreateFail "./index.html" "" "archive").2 := by
  refine ⟨?_, ?_, ?_, ?_⟩ <;> decide

/-- C7: with the user lookup succeeding, a cache file that exists and
deserializes to a token t makes getClient return t with an empty event
trace — in particular no authorization URL is printed and no read from
standard input occurs; and with the cache absent or unreadable
(cachedToken = none, which tokenFromFile reports as an error treated here
as a miss, not as fatal), control falls through to the interactive flow:
the URL is printed and standard input is read. -/
theorem getClient_cache_behavior (env : Env) (home : String)
    (h : env.userCurrent = UserCurrentResult.usrOk home) :
    (∀ t : OAuthToken, env.cachedToken = some t → getClient env = (Outcome.ok t, [])) ∧
    (env.cachedToken = none →
      Ev.printAuthURL ∈ (getClient env).2 ∧ Ev.readStdin ∈ (getClient env).2) := by
  have htcf : tokenCacheFile env = Outcome.ok ".credentials/drive-api-cert.json" := by
    rw [tokenCacheFile, h]
  constructor
  · intro t ht
    simp [getClient, htcf, ht]
  · intro hnone
    have hm := getTokenFromWeb_events env
    rcases hw : getTokenFromWeb env with ⟨ow, evw⟩
    rw [hw] at hm
    rcases hsv : saveToken env with ⟨os, evs2⟩
    rcases ow <;> rcases os <;>
      simp [getClient, htcf, hnone, hw, hsv, hm.1, hm.2]

/-- C7 witness: the cache-hit half at envOk and the cache-miss half at
envCacheMiss. -/
theorem getClient_cache_behavior_witness :
    envOk.userCurrent = UserCurrentResult.usrOk "/home/u" ∧
      envOk.cachedToken = some tok0 ∧
      getClient envOk = (Outcome.ok tok0, []) ∧
      envCacheMiss.cachedToken = none ∧
      Ev.printAuthURL ∈ (getClient envCacheMiss).2 :=
  ⟨rfl, rfl, (getClient_cache_behavior envOk "/home/u" rfl).1 tok0 rfl, rfl,
    ((getClient_cache_behavior envCacheMiss "/home/u" rfl).2 rfl).1⟩

/-- C8: for the empty folder name, getOrCreateFolder returns the empty
identifier without error and without any remote query or creation request
(empty event trace), and the upload then issues the transfer with no
parent attached: its whole event trace is the single transfer-start event
with parent = none. -/
theorem empty_folder_name_uploads_to_root (env : Env) (ti de mi fi : String) (sz : ℤ)
    (ho : env.openOk = true) (hst : env.statSize = some sz) :
    getOrCreateFolder env "" = (Outcome.ok "", []) ∧
    (uploadFile env ti de "" mi fi).2 = [Ev.transferStart none] := by
  have hfold : getOrCreateFolder env "" = (Outcome.ok "", []) := by
    rw [getOrCreateFolder, if_pos rfl]
  refine ⟨hfold, ?_⟩
  rw [uploadFile, if_neg (by simp [ho])]
  simp only [hst, hfold]
  cases env.uploadResult <;> simp

/-- C8 witness: the theorem applied to envOk. -/
theorem empty_folder_name_uploads_to_root_witness :
    envOk.openOk = true ∧ envOk.statSize = some 4096 ∧
      (getOrCreateFolder envOk "" = (Outcome.ok "", []) ∧
        (uploadFile envOk "t" "" "" "text/html" "f").2 = [Ev.transferStart none]) :=
  ⟨rfl, rfl, empty_folder_name_uploads_to_root envOk "t" "" "text/html" "f" 4096 rfl rfl⟩

/-- C9: when the local file cannot be opened, or its size cannot be
determined after opening, uploadFile returns an error immediately with an
empty event trace: no folder resolution, no transfer request, and no
progress callback can have been invoked. -/
theorem uploadFile_open_stat_failure (env : Env) (ti de pn mi fi : String)
    (h : env.openOk = false ∨ env.statSize = none) :
    uploadFile env ti de pn mi fi = (Outcome.errOut, []) := by
  rcases h with h | h
  · rw [uploadFile, if_pos (by rw [h])]
  · rw [uploadFile]
    by_cases ho : env.openOk = false
    · rw [if_pos ho]
    · rw [if_neg ho]
      simp [h]

/-- C9 witness: the theorem at a run with an unopenable file and at a run
with a failing stat. -/
theorem uploadFile_open_stat_failure_witness :
    (envOpenFail.openOk = false ∨ envOpenFail.statSize = none) ∧
      uploadFile envOpenFail "t" "" "user1" "text/html" "f" = (Outcome.errOut, []) ∧
      (envStatFail.openOk = false ∨ envStatFail.statSize = none) ∧
      uploadFile envStatFail "t" "" "user1" "text/html" "f" = (Outcome.errOut, []) :=
  ⟨Or.inl rfl,
    uploadFile_open_stat_failure envOpenFail "t" "" "user1" "text/html" "f" (Or.inl rfl),
    Or.inr rfl,
    uploadFile_open_stat_failure envStatFail "t" "" "user1" "text/html" "f" (Or.inr rfl)⟩

/-- C10: when user.Current() fails returning a nil user, the error branch
of tokenCacheFile dereferences usr.HomeDir to build its result instead of
returning the error alone, so the function panics rather than reporting
the error to its caller. -/
theorem tokenCacheFile_nil_user_panics (env : Env)
    (h : env.userCurrent = UserCurrentResult.errNilUsr) :
    tokenCacheFile env = Outcome.panicked := by
  rw [tokenCacheFile, h]

/-- C10 witness: the theorem at the concrete nil-user run. -/
theorem tokenCacheFile_nil_user_panics_witness :
    envNilUser.userCurrent = UserCurrentResult.errNilUsr ∧
      tokenCacheFile envNilUser = Outcome.panicked :=
  ⟨rfl, tokenCacheFile_nil_user_panics envNilUser rfl⟩

end MagicServer
